import Mathlib

/-
Verification of the raster mosaicking pipeline (`ndr_mosaicking.py`).

The script assembles many raster tiles into single global WGS84 rasters:
`make_empty_wgs84_raster` creates a nodata-filled global raster,
`mosaic_base_into_target` composites one tile into the shared target raster
block by block, `compress_to` builds a compressed copy with an overview
pyramid, `_make_logger_callback` throttles progress logging, and `main`
builds the task graph (one init task per raster suffix, then a chain of
warp/mosaic tasks per tile, serialized per target raster).

Pixel values, coordinates and times are embedded as exact rationals;
machine integers as Nat/Int.  Fallible raster reads return Option.
-/

/-- Default relative tolerance of numpy.isclose (rtol = 1e-05). -/
def RTOL : ℚ := 1 / 100000

/-- Default absolute tolerance of numpy.isclose (atol = 1e-08). -/
def ATOL : ℚ := 1 / 100000000

/-- Embedding of numpy.isclose(a, b) with default tolerances:
absolute(a - b) <= (atol + rtol * absolute(b)).  Note the asymmetry: the
tolerance is relative to the second argument. -/
def numpy_isclose (a b : ℚ) : Prop := |a - b| ≤ ATOL + RTOL * |b|

instance numpy_isclose_dec (a b : ℚ) : Decidable (numpy_isclose a b) := by
  unfold numpy_isclose
  infer_instance

/-- Embedding of Python int() on a float: truncation toward zero. -/
def int_trunc (q : ℚ) : ℤ := if 0 ≤ q then ⌊q⌋ else ⌈q⌉

/-- Rounding to the nearest integer.  Modelled from the spec: the spec
claims the merge offset is computed by "rounding to the nearest integer";
the source uses int() truncation instead.  This definition exists only to
compare the two. -/
def round_nearest (q : ℚ) : ℤ := ⌊q + 1 / 2⌋

/-- GDAL six-coefficient geotransform: (origin x, pixel width, x rotation,
origin y, y rotation, pixel height). -/
structure Geotransform where
  c0 : ℚ
  c1 : ℚ
  c2 : ℚ
  c3 : ℚ
  c4 : ℚ
  c5 : ℚ
deriving DecidableEq

/-- A single-band raster: dimensions, internal block shape, geotransform,
nodata value, and pixel data (total function; only indices in
[0, cols) x [0, rows) are meaningful). -/
structure Raster where
  cols : ℕ
  rows : ℕ
  block_xsize : ℕ
  block_ysize : ℕ
  gt : Geotransform
  nodata : ℚ
  data : ℤ → ℤ → ℚ

/-- One block window yielded by pygeoprocessing.iterblocks: local offset
within the source raster and the (possibly clipped) window size. -/
structure BlockOffset where
  xoff : ℕ
  yoff : ℕ
  win_xsize : ℕ
  win_ysize : ℕ
deriving DecidableEq

/-- Ceiling division on naturals. -/
def ceil_div (a b : ℕ) : ℕ := (a + b - 1) / b

/-- Embedding of the external block iterator (pygeoprocessing.iterblocks):
row-major sequence of block windows tiling a cols x rows raster with block
shape bxs x bys; boundary blocks are clipped to the raster extent. -/
def iterblocks (n_cols n_rows bxs bys : ℕ) : List BlockOffset :=
  (List.range (ceil_div n_rows bys)).flatMap (fun bj =>
    (List.range (ceil_div n_cols bxs)).map (fun bi =>
      ⟨bi * bxs, bj * bys, min bxs (n_cols - bi * bxs),
        min bys (n_rows - bj * bys)⟩))

/-- Target-raster pixel window touched when block b of the source is
written at offset (txoff, tyoff). -/
def in_window (txoff tyoff : ℤ) (b : BlockOffset) (x y : ℤ) : Prop :=
  (b.xoff : ℤ) + txoff ≤ x ∧ x < (b.xoff : ℤ) + txoff + b.win_xsize ∧
  (b.yoff : ℤ) + tyoff ≤ y ∧ y < (b.yoff : ℤ) + tyoff + b.win_ysize

instance in_window_dec (txoff tyoff : ℤ) (b : BlockOffset) (x y : ℤ) :
    Decidable (in_window txoff tyoff b x y) := by
  unfold in_window
  infer_instance

/-- The per-pixel merge rule of mosaic_base_into_target: where the current
target value is numpy-close to the target nodata the source value is
written, otherwise the target value is kept.  (The source value is not
inspected.) -/
def fill_value (t_nodata told snew : ℚ) : ℚ :=
  if numpy_isclose told t_nodata then snew else told

/-- Target data after the masked write of one block: inside the block's
window the per-pixel fill rule is applied to the source pixel that lands
there; all other pixels keep their value. -/
def block_update (base : Raster) (t_nodata : ℚ) (txoff tyoff : ℤ)
    (tdata : ℤ → ℤ → ℚ) (b : BlockOffset) : ℤ → ℤ → ℚ :=
  fun x y =>
    if in_window txoff tyoff b x y then
      fill_value t_nodata (tdata x y) (base.data (x - txoff) (y - tyoff))
    else tdata x y

/-- One iteration of the block loop of mosaic_base_into_target: read the
co-located target window (GDAL ReadAsArray fails if the window leaves the
target raster), overwrite the numpy-close-to-nodata target pixels with the
source block values, and write the window back. -/
def mosaic_block (base : Raster) (t_cols t_rows : ℕ) (t_nodata : ℚ)
    (txoff tyoff : ℤ) (tdata : ℤ → ℤ → ℚ) (b : BlockOffset) :
    Option (ℤ → ℤ → ℚ) :=
  if 0 ≤ (b.xoff : ℤ) + txoff ∧
      (b.xoff : ℤ) + txoff + b.win_xsize ≤ (t_cols : ℤ) ∧
      0 ≤ (b.yoff : ℤ) + tyoff ∧
      (b.yoff : ℤ) + tyoff + b.win_ysize ≤ (t_rows : ℤ) then
    some (block_update base t_nodata txoff tyoff tdata b)
  else none

/-- Embedding of `target_x_off = int((base_gt[0] - target_gt[0]) /
target_gt[1])` from mosaic_base_into_target. -/
def target_x_off (base target : Raster) : ℤ :=
  int_trunc ((base.gt.c0 - target.gt.c0) / target.gt.c1)

/-- Embedding of `target_y_off = int((base_gt[3] - target_gt[3]) /
target_gt[5])` from mosaic_base_into_target. -/
def target_y_off (base target : Raster) : ℤ :=
  int_trunc ((base.gt.c3 - target.gt.c3) / target.gt.c5)

/-- Embedding of mosaic_base_into_target: iterate the source raster's
blocks, merging each into the target at the truncated integer pixel
offset.  Returns none when some block read falls outside the target
raster (a GDAL read error); on success the completion token is written
and the updated target raster is returned. -/
def mosaic_base_into_target (base target : Raster) : Option Raster :=
  ((iterblocks base.cols base.rows base.block_xsize base.block_ysize).foldlM
    (mosaic_block base target.cols target.rows target.nodata
      (target_x_off base target) (target_y_off base target))
    target.data).map (fun d => { target with data := d })

/-- A merge chain: the sequence of mosaic tasks of one output group applied
in submission order to the shared target raster. -/
def mosaic_chain (target : Raster) (bases : List Raster) : Option Raster :=
  bases.foldlM (fun t b => mosaic_base_into_target b t) target

/-- Embedding of make_empty_wgs84_raster: the global raster covering
[-180, 180) x [90, -90) with the given cell size, every pixel filled with
the nodata value. -/
def make_empty_wgs84_raster (cell_size nodata_value : ℚ) : Raster :=
  { cols := (int_trunc (360 / cell_size)).toNat
    rows := (int_trunc (180 / cell_size)).toNat
    block_xsize := 256
    block_ysize := 256
    gt := ⟨-180, cell_size, 0, 90, 0, -cell_size⟩
    nodata := nodata_value
    data := fun _ _ => nodata_value }

/-- Embedding of the tail of make_empty_wgs84_raster (lines 298-301): after
creating and filling the raster it is re-opened; the completion token is
written only when the re-open yields a handle (reopen_ok), and the function
returns normally either way.  The Bool of the result records whether the
token file was created. -/
def make_empty_wgs84_raster_checked (cell_size nodata_value : ℚ)
    (reopen_ok : Bool) : Except String (Raster × Bool) :=
  let r := make_empty_wgs84_raster cell_size nodata_value
  if reopen_ok then Except.ok (r, true) else Except.ok (r, false)

/-- Embedding of the overview-level loop of compress_to: starting at 2 and
doubling, collect levels while min_dimension // current_level is nonzero.
The while loop is embedded with fuel; min_dimension + 1 doublings always
reach a level exceeding min_dimension. -/
def overview_levels_from (min_dimension : ℕ) : ℕ → ℕ → List ℕ
  | 0, _ => []
  | fuel + 1, current_level =>
    if min_dimension / current_level = 0 then []
    else current_level ::
      overview_levels_from min_dimension fuel (current_level * 2)

/-- The overview level list computed by compress_to for a raster whose
smallest dimension is min_dimension. -/
def overview_levels (min_dimension : ℕ) : List ℕ :=
  overview_levels_from min_dimension (min_dimension + 1) 2

/-- Mutable state stored on the logger callback between invocations
(attributes last_time and total_time on the function object). -/
structure CbState where
  last_time : ℚ
  total_time : ℚ
deriving DecidableEq

/-- One invocation of the logger callback built by _make_logger_callback.
A state of none embeds the not-yet-initialized attributes: the first call
raises AttributeError, which is caught, sets last_time to the current time
and total_time to 0, and logs nothing.  Otherwise a report is logged when
more than 5 seconds passed since last_time, or when df_complete == 1.0 and
total_time >= 5.0; on logging, last_time becomes the current time and the
current time is added to total_time.  The Bool records whether the call
logged a report. -/
def logger_callback_step (st : Option CbState) (current_time df_complete : ℚ) :
    Option CbState × Bool :=
  match st with
  | none => (some ⟨current_time, 0⟩, false)
  | some s =>
    if 5 < current_time - s.last_time ∨ (df_complete = 1 ∧ 5 ≤ s.total_time)
    then (some ⟨current_time, s.total_time + current_time⟩, true)
    else (some s, false)

/-- Run the callback over a sequence of (current_time, df_complete) calls
from a given state, pairing each call with whether it logged. -/
def logger_callback_run_aux (st : Option CbState) :
    List (ℚ × ℚ) → List ((ℚ × ℚ) × Bool)
  | [] => []
  | c :: rest =>
    ((c, (logger_callback_step st c.1 c.2).2) ::
      logger_callback_run_aux (logger_callback_step st c.1 c.2).1 rest)

/-- Run a fresh logger callback (uninitialized attributes) over a call
sequence. -/
def logger_callback_run (calls : List (ℚ × ℚ)) : List ((ℚ × ℚ) × Bool) :=
  logger_callback_run_aux none calls

/-- The (time, df_complete) pairs of the calls that actually logged a
progress report. -/
def reports (calls : List (ℚ × ℚ)) : List (ℚ × ℚ) :=
  ((logger_callback_run calls).filter (fun r => r.2)).map (fun r => r.1)

/-- Kind of a task submitted by main to the task graph. -/
inductive TaskKind
  | init
  | warp
  | mosaic
deriving DecidableEq

/-- A task of one output group's sub-DAG: its id, the ids of its direct
dependencies, and its kind. -/
structure ChainTask where
  tid : ℕ
  deps : List ℕ
  kind : TaskKind
deriving DecidableEq

/-- Task id of the k-th wgs84 projection (warp) task of a group. -/
def warp_id (k : ℕ) : ℕ := 2 * k + 1

/-- Task id of the k-th mosaic task of a group. -/
def mosaic_id (k : ℕ) : ℕ := 2 * k + 2

/-- Embedding of the inner loop of main for one raster suffix: for the
k-th tile a warp task depending on the init task (id 0) is submitted, then
a mosaic task depending on the warp task plus previous_project_task_list;
after submitting, previous_project_task_list := [that mosaic task]. -/
def chain_tasks_from : ℕ → ℕ → List ℕ → List ChainTask
  | _, 0, _ => []
  | k, m + 1, prev =>
    ⟨warp_id k, [0], TaskKind.warp⟩ ::
    ⟨mosaic_id k, warp_id k :: prev, TaskKind.mosaic⟩ ::
    chain_tasks_from (k + 1) m [mosaic_id k]

/-- The task list main builds for one output group with n tiles: the init
task (make_empty_wgs84_raster, id 0) followed by the warp/mosaic pairs,
starting from an empty previous_project_task_list. -/
def chain_tasks (n : ℕ) : List ChainTask :=
  ⟨0, [], TaskKind.init⟩ :: chain_tasks_from 0 n []

/-- A schedule assigns each task id a start and an end time.  It is valid
for a task list when every task starts no later than it ends and no task
starts before each of its direct dependencies has ended. -/
def sched_valid (tasks : List ChainTask) (tstart tstop : ℕ → ℚ) : Prop :=
  (∀ t ∈ tasks, tstart t.tid ≤ tstop t.tid) ∧
  (∀ t ∈ tasks, ∀ d ∈ t.deps, tstop d ≤ tstart t.tid)

/-- A task scheduled during pipeline construction, tagged with the raster
suffix it serves. -/
structure PTask where
  kind : TaskKind
  sfx : List ℕ
deriving DecidableEq

/-- Embedding of Python str.endswith: the suffix matches the tail of the
file name. -/
def ends_with (file sfx : List ℕ) : Bool :=
  decide (sfx.length ≤ file.length) &&
    (file.drop (file.length - sfx.length) == sfx)

/-- Embedding of the tile lookup in main: the first file of the directory
listing whose name ends with the raster suffix. -/
def find_matching (files : List (List ℕ)) (sfx : List ℕ) :
    Option (List ℕ) :=
  files.find? (fun f => ends_with f sfx)

/-- Embedding of the first loop of main: for each declared raster suffix,
in order, look up a matching file in the sample directory; if none matches
a ValueError aborts construction (Bool false), otherwise the
make_empty_wgs84_raster task for that suffix is scheduled and the loop
continues.  Returns the scheduled tasks and whether the loop completed. -/
def schedule_init_tasks : List (List ℕ) → List (List ℕ) → List PTask × Bool
  | [], _ => ([], true)
  | s :: rest, files =>
    match find_matching files s with
    | some _ =>
      (⟨TaskKind.init, s⟩ :: (schedule_init_tasks rest files).1,
        (schedule_init_tasks rest files).2)
    | none => ([], false)

/-- Embedding of the inner directory loop of the second phase of main for
one suffix: each leaf directory must hold a matching tile, else a
RuntimeError aborts; otherwise a warp task and a mosaic task are
scheduled. -/
def schedule_merge_for : List ℕ → List (List (List ℕ)) → List PTask × Bool
  | _, [] => ([], true)
  | s, d :: rest =>
    match find_matching d s with
    | some _ =>
      (⟨TaskKind.warp, s⟩ :: ⟨TaskKind.mosaic, s⟩ ::
        (schedule_merge_for s rest).1, (schedule_merge_for s rest).2)
    | none => ([], false)

/-- Embedding of the second phase of main: the warp/mosaic loops over all
suffixes and leaf directories. -/
def schedule_merge_tasks :
    List (List ℕ) → List (List (List ℕ)) → List PTask × Bool
  | [], _ => ([], true)
  | s :: rest, dirs =>
    if (schedule_merge_for s dirs).2 then
      ((schedule_merge_for s dirs).1 ++ (schedule_merge_tasks rest dirs).1,
        (schedule_merge_tasks rest dirs).2)
    else ((schedule_merge_for s dirs).1, false)

/-- Embedding of pipeline construction in main: phase one schedules the
init tasks from the sample directory listing; only if it completes does
phase two schedule the warp and mosaic tasks over the discovered leaf
directories.  Returns every task scheduled before construction finished or
aborted, and whether construction succeeded. -/
def build_pipeline (sfxs files : List (List ℕ))
    (dirs : List (List (List ℕ))) : List PTask × Bool :=
  if (schedule_init_tasks sfxs files).2 then
    ((schedule_init_tasks sfxs files).1 ++
      (schedule_merge_tasks sfxs dirs).1, (schedule_merge_tasks sfxs dirs).2)
  else ((schedule_init_tasks sfxs files).1, false)

/-- The value a target pixel holds after a merge touched it: the fill rule
applied to the original target value and the source pixel mapped there. -/
def merged_val (base : Raster) (t_nodata : ℚ) (txoff tyoff : ℤ)
    (t0 : ℤ → ℤ → ℚ) (x y : ℤ) : ℚ :=
  fill_value t_nodata (t0 x y) (base.data (x - txoff) (y - tyoff))

/-- The region of the target raster covered by the source raster when
written at offset (txoff, tyoff). -/
def in_base_window (base target : Raster) (x y : ℤ) : Prop :=
  target_x_off base target ≤ x ∧
  x < target_x_off base target + base.cols ∧
  target_y_off base target ≤ y ∧
  y < target_y_off base target + base.rows

instance in_base_window_dec (base target : Raster) (x y : ℤ) :
    Decidable (in_base_window base target x y) := by
  unfold in_base_window
  infer_instance

/-- The side conditions under which every block write of a merge stays
inside the target raster: positive source block shape and the source
window, at its truncated offset, contained in the target extent. -/
def merge_ok (base target : Raster) : Prop :=
  1 ≤ base.block_xsize ∧ 1 ≤ base.block_ysize ∧
  0 ≤ target_x_off base target ∧
  target_x_off base target + base.cols ≤ (target.cols : ℤ) ∧
  0 ≤ target_y_off base target ∧
  target_y_off base target + base.rows ≤ (target.rows : ℤ)

theorem fill_value_idem (nd t s : ℚ) :
    fill_value nd (fill_value nd t s) s = fill_value nd t s := by
  unfold fill_value
  by_cases h : numpy_isclose t nd
  · rw [if_pos h]
    exact ite_self s
  · rw [if_neg h, if_neg h]

theorem mosaic_fold_spec (base : Raster) (t_cols t_rows : ℕ) (nd : ℚ)
    (txoff tyoff : ℤ) (t0 : ℤ → ℤ → ℚ) :
    ∀ (L : List BlockOffset) (S : ℤ → ℤ → Prop) (tdata : ℤ → ℤ → ℚ),
    (∀ b ∈ L, 0 ≤ (b.xoff : ℤ) + txoff ∧
      (b.xoff : ℤ) + txoff + b.win_xsize ≤ (t_cols : ℤ) ∧
      0 ≤ (b.yoff : ℤ) + tyoff ∧
      (b.yoff : ℤ) + tyoff + b.win_ysize ≤ (t_rows : ℤ)) →
    (∀ x y, (S x y → tdata x y = merged_val base nd txoff tyoff t0 x y) ∧
      (¬ S x y → tdata x y = t0 x y)) →
    ∃ d, L.foldlM (mosaic_block base t_cols t_rows nd txoff tyoff) tdata
        = some d ∧
      ∀ x y,
        ((S x y ∨ ∃ b ∈ L, in_window txoff tyoff b x y) →
          d x y = merged_val base nd txoff tyoff t0 x y) ∧
        (¬ (S x y ∨ ∃ b ∈ L, in_window txoff tyoff b x y) →
          d x y = t0 x y) := by
  intro L
  induction L with
  | nil =>
    intro S tdata _ h2
    refine ⟨tdata, rfl, fun x y => ⟨?_, ?_⟩⟩
    · intro h
      rcases h with hs | ⟨b, hb, _⟩
      · exact (h2 x y).1 hs
      · simp at hb
    · intro h
      exact (h2 x y).2 (fun hs => h (Or.inl hs))
  | cons b L ih =>
    intro S tdata hbd h2
    have hb := hbd b (List.mem_cons_self b L)
    have hstep : mosaic_block base t_cols t_rows nd txoff tyoff tdata b =
        some (block_update base nd txoff tyoff tdata b) := by
      rw [mosaic_block, if_pos hb]
    have hinv : ∀ x y,
        ((S x y ∨ in_window txoff tyoff b x y) →
          block_update base nd txoff tyoff tdata b x y =
            merged_val base nd txoff tyoff t0 x y) ∧
        (¬ (S x y ∨ in_window txoff tyoff b x y) →
          block_update base nd txoff tyoff tdata b x y = t0 x y) := by
      intro x y
      by_cases hw : in_window txoff tyoff b x y
      · refine ⟨fun _ => ?_, fun hns => absurd (Or.inr hw) hns⟩
        rw [block_update]
        simp only [if_pos hw]
        by_cases hs : S x y
        · rw [(h2 x y).1 hs, merged_val]
          exact fill_value_idem nd (t0 x y)
            (base.data (x - txoff) (y - tyoff))
        · rw [(h2 x y).2 hs, merged_val]
      · refine ⟨?_, ?_⟩
        · intro h
          rcases h with hs | hw'
          · rw [block_update]
            simp only [if_neg hw]
            exact (h2 x y).1 hs
          · exact absurd hw' hw
        · intro hns
          rw [block_update]
          simp only [if_neg hw]
          exact (h2 x y).2 (fun hs => hns (Or.inl hs))
    obtain ⟨d, hd, hchar⟩ :=
      ih (fun x y => S x y ∨ in_window txoff tyoff b x y)
        (block_update base nd txoff tyoff tdata b)
        (fun b' hb' => hbd b' (List.mem_cons_of_mem b hb')) hinv
    have hiff : ∀ x y,
        (S x y ∨ ∃ b' ∈ b :: L, in_window txoff tyoff b' x y) ↔
        ((S x y ∨ in_window txoff tyoff b x y) ∨
          ∃ b' ∈ L, in_window txoff tyoff b' x y) := by
      intro x y
      constructor
      · rintro (hs | ⟨b', hb', hw⟩)
        · exact Or.inl (Or.inl hs)
        · rcases List.mem_cons.mp hb' with rfl | hbl
          · exact Or.inl (Or.inr hw)
          · exact Or.inr ⟨b', hbl, hw⟩
      · rintro ((hs | hw) | ⟨b', hbl, hw⟩)
        · exact Or.inl hs
        · exact Or.inr ⟨b, List.mem_cons_self b L, hw⟩
        · exact Or.inr ⟨b', List.mem_cons_of_mem b hbl, hw⟩
    refine ⟨d, ?_, fun x y => ⟨?_, ?_⟩⟩
    · rw [List.foldlM_cons, hstep]
      simpa using hd
    · intro h
      exact (hchar x y).1 ((hiff x y).mp h)
    · intro h
      exact (hchar x y).2 (fun h' => h ((hiff x y).mpr h'))

theorem le_ceil_div_mul (a b : ℕ) (hb : 1 ≤ b) : a ≤ ceil_div a b * b := by
  have h := Nat.div_add_mod (a + b - 1) b
  have hr : (a + b - 1) % b < b := Nat.mod_lt _ hb
  rw [ceil_div, mul_comm]
  obtain ⟨m, hm⟩ : ∃ m, b * ((a + b - 1) / b) = m := ⟨_, rfl⟩
  rw [hm] at h ⊢
  omega

theorem mul_lt_of_lt_ceil_div {a b i : ℕ} (hb : 1 ≤ b)
    (hi : i < ceil_div a b) : i * b < a := by
  have h1 : (i + 1) * b ≤ ceil_div a b * b := Nat.mul_le_mul_right b hi
  have h2 : ceil_div a b * b ≤ a + b - 1 := by
    rw [ceil_div]
    exact Nat.div_mul_le_self _ _
  rw [add_one_mul] at h1
  obtain ⟨m, hm⟩ : ∃ m, i * b = m := ⟨_, rfl⟩
  rw [hm] at h1 ⊢
  omega

theorem lt_ceil_div_of_lt {a b u : ℕ} (hb : 1 ≤ b) (hu : u < a) :
    u / b < ceil_div a b := by
  rw [Nat.div_lt_iff_lt_mul hb]
  exact lt_of_lt_of_le hu (le_ceil_div_mul a b hb)

theorem iterblocks_mem {n_cols n_rows bxs bys : ℕ} {b : BlockOffset} :
    b ∈ iterblocks n_cols n_rows bxs bys ↔
    ∃ bj, bj < ceil_div n_rows bys ∧ ∃ bi, bi < ceil_div n_cols bxs ∧
      b = ⟨bi * bxs, bj * bys, min bxs (n_cols - bi * bxs),
        min bys (n_rows - bj * bys)⟩ := by
  simp only [iterblocks, List.mem_flatMap, List.mem_map, List.mem_range]
  constructor
  · rintro ⟨bj, hbj, bi, hbi, rfl⟩
    exact ⟨bj, hbj, bi, hbi, rfl⟩
  · rintro ⟨bj, hbj, bi, hbi, rfl⟩
    exact ⟨bj, hbj, bi, hbi, rfl⟩

theorem iterblocks_le {n_cols n_rows bxs bys : ℕ} (hbx : 1 ≤ bxs)
    (hby : 1 ≤ bys) {b : BlockOffset}
    (hb : b ∈ iterblocks n_cols n_rows bxs bys) :
    b.xoff + b.win_xsize ≤ n_cols ∧ b.yoff + b.win_ysize ≤ n_rows := by
  obtain ⟨bj, hbj, bi, hbi, rfl⟩ := iterblocks_mem.mp hb
  have hx := mul_lt_of_lt_ceil_div hbx hbi
  have hy := mul_lt_of_lt_ceil_div hby hbj
  constructor
  · simp only
    omega
  · simp only
    omega

theorem iterblocks_cover {n_cols n_rows bxs bys : ℕ} (hbx : 1 ≤ bxs)
    (hby : 1 ≤ bys) {u v : ℕ} (hu : u < n_cols) (hv : v < n_rows) :
    ∃ b ∈ iterblocks n_cols n_rows bxs bys,
      b.xoff ≤ u ∧ u < b.xoff + b.win_xsize ∧
      b.yoff ≤ v ∧ v < b.yoff + b.win_ysize := by
  refine ⟨⟨u / bxs * bxs, v / bys * bys, min bxs (n_cols - u / bxs * bxs),
    min bys (n_rows - v / bys * bys)⟩, ?_, ?_, ?_, ?_, ?_⟩
  · exact iterblocks_mem.mpr
      ⟨v / bys, lt_ceil_div_of_lt hby hv, u / bxs, lt_ceil_div_of_lt hbx hu,
        rfl⟩
  · exact Nat.div_mul_le_self u bxs
  · have h := Nat.div_add_mod u bxs
    have hr : u % bxs < bxs := Nat.mod_lt _ hbx
    simp only
    obtain ⟨m, hm⟩ : ∃ m, u / bxs * bxs = m := ⟨_, rfl⟩
    rw [mul_comm] at h
    rw [hm] at h ⊢
    omega
  · exact Nat.div_mul_le_self v bys
  · have h := Nat.div_add_mod v bys
    have hr : v % bys < bys := Nat.mod_lt _ hby
    simp only
    obtain ⟨m, hm⟩ : ∃ m, v / bys * bys = m := ⟨_, rfl⟩
    rw [mul_comm] at h
    rw [hm] at h ⊢
    omega

theorem mosaic_spec (base target : Raster) (h : merge_ok base target) :
    ∃ d, mosaic_base_into_target base target =
        some { target with data := d } ∧
      ∀ x y,
        (in_base_window base target x y →
          d x y = merged_val base target.nodata (target_x_off base target)
            (target_y_off base target) target.data x y) ∧
        (¬ in_base_window base target x y → d x y = target.data x y) := by
  obtain ⟨hbx, hby, hx0, hx1, hy0, hy1⟩ := h
  have hbounds : ∀ b ∈ iterblocks base.cols base.rows base.block_xsize
      base.block_ysize,
      0 ≤ (b.xoff : ℤ) + target_x_off base target ∧
      (b.xoff : ℤ) + target_x_off base target + b.win_xsize ≤
        (target.cols : ℤ) ∧
      0 ≤ (b.yoff : ℤ) + target_y_off base target ∧
      (b.yoff : ℤ) + target_y_off base target + b.win_ysize ≤
        (target.rows : ℤ) := by
    intro b hb
    obtain ⟨hxs, hys⟩ := iterblocks_le hbx hby hb
    have hxs' : (b.xoff : ℤ) + b.win_xsize ≤ (base.cols : ℤ) := by
      exact_mod_cast hxs
    have hys' : (b.yoff : ℤ) + b.win_ysize ≤ (base.rows : ℤ) := by
      exact_mod_cast hys
    refine ⟨by omega, by omega, by omega, by omega⟩
  obtain ⟨d, hd, hc⟩ := mosaic_fold_spec base target.cols target.rows
    target.nodata (target_x_off base target) (target_y_off base target)
    target.data
    (iterblocks base.cols base.rows base.block_xsize base.block_ysize)
    (fun _ _ => False) target.data hbounds
    (fun x y => ⟨fun hf => absurd hf not_false, fun _ => rfl⟩)
  refine ⟨d, ?_, fun x y => ⟨?_, ?_⟩⟩
  · rw [mosaic_base_into_target, hd]
    rfl
  · intro hin
    apply (hc x y).1
    right
    obtain ⟨hwx0, hwx1, hwy0, hwy1⟩ := hin
    have hxnn : 0 ≤ x - target_x_off base target := by omega
    have hynn : 0 ≤ y - target_y_off base target := by omega
    have hux : ((x - target_x_off base target).toNat : ℤ) =
        x - target_x_off base target := Int.toNat_of_nonneg hxnn
    have huy : ((y - target_y_off base target).toNat : ℤ) =
        y - target_y_off base target := Int.toNat_of_nonneg hynn
    have hu : (x - target_x_off base target).toNat < base.cols := by omega
    have hv : (y - target_y_off base target).toNat < base.rows := by omega
    obtain ⟨b, hb, hb1, hb2, hb3, hb4⟩ := iterblocks_cover hbx hby hu hv
    refine ⟨b, hb, ?_, ?_, ?_, ?_⟩
    · have : (b.xoff : ℤ) ≤ (x - target_x_off base target).toNat :=
        Int.ofNat_le.mpr hb1
      omega
    · have : ((x - target_x_off base target).toNat : ℤ) <
        (b.xoff : ℤ) + b.win_xsize := by exact_mod_cast hb2
      omega
    · have : (b.yoff : ℤ) ≤ (y - target_y_off base target).toNat :=
        Int.ofNat_le.mpr hb3
      omega
    · have : ((y - target_y_off base target).toNat : ℤ) <
        (b.yoff : ℤ) + b.win_ysize := by exact_mod_cast hb4
      omega
  · intro hnin
    apply (hc x y).2
    rintro (hf | ⟨b, hb, hw⟩)
    · exact hf
    · apply hnin
      obtain ⟨hxs, hys⟩ := iterblocks_le hbx hby hb
      have hxs' : (b.xoff : ℤ) + b.win_xsize ≤ (base.cols : ℤ) := by
        exact_mod_cast hxs
      have hys' : (b.yoff : ℤ) + b.win_ysize ≤ (base.rows : ℤ) := by
        exact_mod_cast hys
      obtain ⟨hw1, hw2, hw3, hw4⟩ := hw
      exact ⟨by omega, by omega, by omega, by omega⟩

theorem target_x_off_update (b t : Raster) (d : ℤ → ℤ → ℚ) :
    target_x_off b { t with data := d } = target_x_off b t := rfl

theorem target_y_off_update (b t : Raster) (d : ℤ → ℤ → ℚ) :
    target_y_off b { t with data := d } = target_y_off b t := rfl

theorem merge_ok_update (b t : Raster) (d : ℤ → ℤ → ℚ) :
    merge_ok b { t with data := d } ↔ merge_ok b t := Iff.rfl

theorem in_base_window_update (b t : Raster) (d : ℤ → ℤ → ℚ) (x y : ℤ) :
    in_base_window b { t with data := d } x y ↔ in_base_window b t x y :=
  Iff.rfl

/-- Source values a merge chain offers to the target pixel (x, y), in
chain order: for each source raster, its pixel mapped onto (x, y). -/
def chain_contribs (target : Raster) (bases : List Raster) (x y : ℤ) :
    List ℚ :=
  bases.map (fun b =>
    b.data (x - target_x_off b target) (y - target_y_off b target))

/-- Scalar evolution of one target cell under a sequence of merges: each
step applies the per-pixel fill rule. -/
def fill_fold (nd t : ℚ) (vs : List ℚ) : ℚ :=
  vs.foldl (fun a v => fill_value nd a v) t

/-- The first chain contribution that is not numpy-close to the nodata
value, if any. -/
def first_not_close (nd : ℚ) (vs : List ℚ) : Option ℚ :=
  vs.find? (fun v => !(decide (numpy_isclose v nd)))

theorem numpy_isclose_self (a : ℚ) : numpy_isclose a a := by
  rw [numpy_isclose, sub_self, abs_zero]
  have h1 : (0:ℚ) < ATOL := by rw [ATOL]; norm_num
  have h2 : (0:ℚ) ≤ RTOL * |a| := by
    apply mul_nonneg _ (abs_nonneg a)
    rw [RTOL]; norm_num
  linarith

theorem fill_fold_of_not_close (nd : ℚ) :
    ∀ (vs : List ℚ) (t : ℚ), ¬ numpy_isclose t nd → fill_fold nd t vs = t := by
  intro vs
  induction vs with
  | nil => intro t _; rfl
  | cons v vs ih =>
    intro t h
    have hstep : fill_value nd t v = t := by rw [fill_value, if_neg h]
    show List.foldl _ (fill_value nd t v) vs = t
    rw [hstep]
    exact ih t h

theorem fill_fold_first (nd : ℚ) :
    ∀ (vs : List ℚ) (t v : ℚ), numpy_isclose t nd →
    first_not_close nd vs = some v → fill_fold nd t vs = v := by
  intro vs
  induction vs with
  | nil =>
    intro t v _ h
    simp [first_not_close] at h
  | cons w vs ih =>
    intro t v ht hf
    have hstep : fill_value nd t w = w := by rw [fill_value, if_pos ht]
    have hshow : fill_fold nd t (w :: vs) = fill_fold nd w vs := by
      show List.foldl _ (fill_value nd t w) vs = _
      rw [hstep]
      rfl
    by_cases hw : numpy_isclose w nd
    · have hf' : first_not_close nd vs = some v := by
        rw [first_not_close, List.find?_cons] at hf
        simpa [hw, first_not_close] using hf
      rw [hshow]
      exact ih w v hw hf'
    · have hv : v = w := by
        rw [first_not_close, List.find?_cons] at hf
        simp [hw] at hf
        exact hf.symm
      rw [hshow, hv]
      exact fill_fold_of_not_close nd vs w hw

theorem mosaic_chain_spec (x y : ℤ) :
    ∀ (bases : List Raster) (target : Raster),
    (∀ b ∈ bases, merge_ok b target) →
    (∀ b ∈ bases, in_base_window b target x y) →
    ∃ d, mosaic_chain target bases = some { target with data := d } ∧
      d x y = fill_fold target.nodata (target.data x y)
        (chain_contribs target bases x y) := by
  intro bases
  induction bases with
  | nil =>
    intro target _ _
    exact ⟨target.data, rfl, rfl⟩
  | cons b bs ih =>
    intro target hok hcov
    obtain ⟨d1, hd1, hc1⟩ :=
      mosaic_spec b target (hok b (List.mem_cons_self b bs))
    obtain ⟨d, hd, hval⟩ := ih { target with data := d1 }
      (fun b' hb' => hok b' (List.mem_cons_of_mem b hb'))
      (fun b' hb' => hcov b' (List.mem_cons_of_mem b hb'))
    refine ⟨d, ?_, ?_⟩
    · show (mosaic_base_into_target b target) >>=
        (fun t => bs.foldlM (fun t b => mosaic_base_into_target b t) t) =
          some { target with data := d }
      rw [hd1]
      exact hd
    · have hfirst : d1 x y = fill_value target.nodata (target.data x y)
          (b.data (x - target_x_off b target) (y - target_y_off b target)) :=
        (hc1 x y).1 (hcov b (List.mem_cons_self b bs))
    -- value of the chain: one fill step then the rest of the fold
      have hcontribs : chain_contribs { target with data := d1 } bs x y =
          chain_contribs target bs x y := rfl
      rw [hval]
      show fill_fold target.nodata (d1 x y)
          (chain_contribs target bs x y) = _
      rw [hfirst]
      rfl

theorem overview_levels_from_eq (m : ℕ) :
    ∀ (fuel cur : ℕ),
    overview_levels_from m fuel cur =
      ((List.range fuel).map (fun i => cur * 2 ^ i)).takeWhile
        (fun l => m / l != 0) := by
  intro fuel
  induction fuel with
  | zero => intro cur; rfl
  | succ fuel ih =>
    intro cur
    rw [List.range_succ_eq_map]
    simp only [List.map_cons, List.map_map, List.takeWhile_cons, pow_zero,
      mul_one]
    by_cases h : m / cur = 0
    · simp only [overview_levels_from, h, bne_self_eq_false]
      simp [h]
    · have hb : (m / cur != 0) = true := by simpa using h
      simp only [overview_levels_from, if_neg h, hb, if_true]
      rw [ih (cur * 2)]
      have hmap : ((fun i => cur * 2 ^ i) ∘ Nat.succ) =
          (fun i => cur * 2 * 2 ^ i) := by
        funext i
        show cur * 2 ^ (i + 1) = cur * 2 * 2 ^ i
        ring
      rw [hmap]

theorem schedule_init_tasks_fail :
    ∀ (sfxs files : List (List ℕ)),
    (∃ s ∈ sfxs, find_matching files s = none) →
    (schedule_init_tasks sfxs files).2 = false := by
  intro sfxs
  induction sfxs with
  | nil =>
    intro files h
    simp at h
  | cons s rest ih =>
    intro files h
    rcases h with ⟨s', hs', hnone⟩
    rcases List.mem_cons.mp hs' with rfl | hmem
    · rw [schedule_init_tasks, hnone]
    · cases hfind : find_matching files s with
      | none => rw [schedule_init_tasks, hfind]
      | some f =>
        rw [schedule_init_tasks, hfind]
        exact ih files ⟨s', hmem, hnone⟩

theorem schedule_init_tasks_kinds :
    ∀ (sfxs files : List (List ℕ)) (t : PTask),
    t ∈ (schedule_init_tasks sfxs files).1 → t.kind = TaskKind.init := by
  intro sfxs
  induction sfxs with
  | nil =>
    intro files t ht
    simp [schedule_init_tasks] at ht
  | cons s rest ih =>
    intro files t ht
    cases hfind : find_matching files s with
    | none =>
      rw [schedule_init_tasks, hfind] at ht
      simp at ht
    | some f =>
      rw [schedule_init_tasks, hfind] at ht
      rcases List.mem_cons.mp ht with rfl | hmem
      · rfl
      · exact ih files t hmem

theorem chain_tasks_from_warp_mem :
    ∀ (m k : ℕ) (prev : List ℕ) (j : ℕ), j < m →
    (⟨warp_id (k + j), [0], TaskKind.warp⟩ : ChainTask) ∈
      chain_tasks_from k m prev := by
  intro m
  induction m with
  | zero =>
    intro k prev j hj
    exact absurd hj (Nat.not_lt_zero j)
  | succ m ih =>
    intro k prev j hj
    cases j with
    | zero =>
      rw [chain_tasks_from]
      exact List.mem_cons_self _ _
    | succ j =>
      have heq : k + (j + 1) = (k + 1) + j := by omega
      rw [chain_tasks_from, heq]
      exact List.mem_cons_of_mem _ (List.mem_cons_of_mem _
        (ih (k + 1) [mosaic_id k] j (by omega)))

theorem chain_tasks_from_mosaic_head :
    ∀ (m k : ℕ) (prev : List ℕ), 0 < m →
    (⟨mosaic_id k, warp_id k :: prev, TaskKind.mosaic⟩ : ChainTask) ∈
      chain_tasks_from k m prev := by
  intro m
  cases m with
  | zero =>
    intro k prev h
    exact absurd h (lt_irrefl 0)
  | succ m =>
    intro k prev _
    rw [chain_tasks_from]
    exact List.mem_cons_of_mem _ (List.mem_cons_self _ _)

theorem chain_tasks_from_mosaic_succ :
    ∀ (m k : ℕ) (prev : List ℕ) (j : ℕ), j + 1 < m →
    (⟨mosaic_id (k + j + 1), [warp_id (k + j + 1), mosaic_id (k + j)],
      TaskKind.mosaic⟩ : ChainTask) ∈ chain_tasks_from k m prev := by
  intro m
  induction m with
  | zero =>
    intro k prev j hj
    exact absurd hj (Nat.not_lt_zero _)
  | succ m ih =>
    intro k prev j hj
    cases j with
    | zero =>
      rw [chain_tasks_from]
      refine List.mem_cons_of_mem _ (List.mem_cons_of_mem _ ?_)
      have h := chain_tasks_from_mosaic_head m (k + 1) [mosaic_id k]
        (by omega)
      simpa using h
    | succ j =>
      have heq1 : k + (j + 1) + 1 = (k + 1) + j + 1 := by omega
      have heq2 : k + (j + 1) = (k + 1) + j := by omega
      rw [chain_tasks_from, heq1, heq2]
      exact List.mem_cons_of_mem _ (List.mem_cons_of_mem _
        (ih (k + 1) [mosaic_id k] j (by omega)))

theorem chain_tasks_warp_mem {n k : ℕ} (hk : k < n) :
    (⟨warp_id k, [0], TaskKind.warp⟩ : ChainTask) ∈ chain_tasks n :=
  List.mem_cons_of_mem _
    (by simpa using chain_tasks_from_warp_mem n 0 [] k hk)

theorem chain_tasks_mosaic_zero_mem {n : ℕ} (hn : 0 < n) :
    (⟨mosaic_id 0, [warp_id 0], TaskKind.mosaic⟩ : ChainTask) ∈
      chain_tasks n :=
  List.mem_cons_of_mem _ (chain_tasks_from_mosaic_head n 0 [] hn)

theorem chain_tasks_mosaic_succ_mem {n k : ℕ} (hk : k + 1 < n) :
    (⟨mosaic_id (k + 1), [warp_id (k + 1), mosaic_id k], TaskKind.mosaic⟩ :
      ChainTask) ∈ chain_tasks n :=
  List.mem_cons_of_mem _
    (by simpa using chain_tasks_from_mosaic_succ n 0 [] k hk)

theorem sched_mosaic_self {n : ℕ} {tstart tstop : ℕ → ℚ}
    (hv : sched_valid (chain_tasks n) tstart tstop) {k : ℕ} (hk : k < n) :
    tstart (mosaic_id k) ≤ tstop (mosaic_id k) := by
  cases k with
  | zero => exact hv.1 _ (chain_tasks_mosaic_zero_mem hk)
  | succ k => exact hv.1 _ (chain_tasks_mosaic_succ_mem hk)

theorem sched_init_before_mosaic {n : ℕ} {tstart tstop : ℕ → ℚ}
    (hv : sched_valid (chain_tasks n) tstart tstop) {k : ℕ} (hk : k < n) :
    tstop 0 ≤ tstart (mosaic_id k) := by
  have hw := chain_tasks_warp_mem hk
  have h1 : tstop 0 ≤ tstart (warp_id k) :=
    hv.2 _ hw 0 (List.mem_cons_self 0 [])
  have h2 : tstart (warp_id k) ≤ tstop (warp_id k) := hv.1 _ hw
  have h3 : tstop (warp_id k) ≤ tstart (mosaic_id k) := by
    cases k with
    | zero =>
      exact hv.2 _ (chain_tasks_mosaic_zero_mem hk) _
        (List.mem_cons_self _ _)
    | succ k =>
      exact hv.2 _ (chain_tasks_mosaic_succ_mem hk) _
        (List.mem_cons_self _ _)
  linarith

theorem sched_mosaic_chain_order {n : ℕ} {tstart tstop : ℕ → ℚ}
    (hv : sched_valid (chain_tasks n) tstart tstop) :
    ∀ i j, i < j → j < n → tstop (mosaic_id i) ≤ tstart (mosaic_id j) := by
  intro i j hij
  induction j, hij using Nat.le_induction with
  | base =>
    intro hn
    exact hv.2 _ (chain_tasks_mosaic_succ_mem hn) _
      (List.mem_cons_of_mem _ (List.mem_cons_self _ _))
  | succ j hij ihj =>
    intro hn
    have hjn : j < n := by omega
    have h1 := ihj hjn
    have h2 := sched_mosaic_self hv hjn
    have h3 : tstop (mosaic_id j) ≤ tstart (mosaic_id (j + 1)) :=
      hv.2 _ (chain_tasks_mosaic_succ_mem hn) _
        (List.mem_cons_of_mem _ (List.mem_cons_self _ _))
    linarith

/-- The (time, df_complete) pairs among calls from state s that log a
progress report. -/
def aux_reports (s : CbState) (calls : List (ℚ × ℚ)) : List (ℚ × ℚ) :=
  ((logger_callback_run_aux (some s) calls).filter (fun r => r.2)).map
    (fun r => r.1)

theorem aux_reports_late :
    ∀ (calls : List (ℚ × ℚ)) (s : CbState),
    List.Pairwise (fun a b => a.1 ≤ b.1) calls →
    (∀ c ∈ calls, s.last_time ≤ c.1) →
    ∀ r ∈ aux_reports s calls, r.2 = 1 ∨ 5 < r.1 - s.last_time := by
  intro calls
  induction calls with
  | nil =>
    intro s _ _ r hr
    simp [aux_reports, logger_callback_run_aux] at hr
  | cons c rest ih =>
    intro s hpair hall r hr
    by_cases hcond : 5 < c.1 - s.last_time ∨ (c.2 = 1 ∧ 5 ≤ s.total_time)
    · have hstep : logger_callback_step (some s) c.1 c.2 =
          (some ⟨c.1, s.total_time + c.1⟩, true) := by
        simp only [logger_callback_step]
        rw [if_pos hcond]
      have hunfold : aux_reports s (c :: rest) =
          c :: aux_reports ⟨c.1, s.total_time + c.1⟩ rest := by
        simp [aux_reports, logger_callback_run_aux, hstep]
      rw [hunfold] at hr
      rcases List.mem_cons.mp hr with rfl | hmem
      · rcases hcond with h5 | ⟨h1, _⟩
        · exact Or.inr h5
        · exact Or.inl h1
      · have hrest := ih ⟨c.1, s.total_time + c.1⟩ hpair.of_cons
          (fun c' hc' => List.rel_of_pairwise_cons hpair hc') r hmem
        rcases hrest with h1 | h5
        · exact Or.inl h1
        · have h5' : (5:ℚ) < r.1 - c.1 := h5
          have hlc : s.last_time ≤ c.1 := hall c (List.mem_cons_self c rest)
          right
          linarith
    · have hstep : logger_callback_step (some s) c.1 c.2 = (some s, false) := by
        simp only [logger_callback_step]
        rw [if_neg hcond]
      have hunfold : aux_reports s (c :: rest) = aux_reports s rest := by
        simp [aux_reports, logger_callback_run_aux, hstep]
      rw [hunfold] at hr
      exact ih s hpair.of_cons
        (fun c' hc' => hall c' (List.mem_cons_of_mem _ hc')) r hr

theorem aux_reports_pairwise :
    ∀ (calls : List (ℚ × ℚ)) (s : CbState),
    List.Pairwise (fun a b => a.1 ≤ b.1) calls →
    (∀ c ∈ calls, s.last_time ≤ c.1) →
    (aux_reports s calls).Pairwise (fun a b => b.1 - a.1 < 5 → b.2 = 1) := by
  intro calls
  induction calls with
  | nil =>
    intro s _ _
    simp [aux_reports, logger_callback_run_aux]
  | cons c rest ih =>
    intro s hpair hall
    by_cases hcond : 5 < c.1 - s.last_time ∨ (c.2 = 1 ∧ 5 ≤ s.total_time)
    · have hstep : logger_callback_step (some s) c.1 c.2 =
          (some ⟨c.1, s.total_time + c.1⟩, true) := by
        simp only [logger_callback_step]
        rw [if_pos hcond]
      have hunfold : aux_reports s (c :: rest) =
          c :: aux_reports ⟨c.1, s.total_time + c.1⟩ rest := by
        simp [aux_reports, logger_callback_run_aux, hstep]
      rw [hunfold]
      refine List.pairwise_cons.mpr ⟨?_, ?_⟩
      · intro b hb hlt
        have := aux_reports_late rest ⟨c.1, s.total_time + c.1⟩ hpair.of_cons
          (fun c' hc' => List.rel_of_pairwise_cons hpair hc') b hb
        rcases this with h1 | h5
        · exact h1
        · have h5' : (5:ℚ) < b.1 - c.1 := h5
          linarith
      · exact ih ⟨c.1, s.total_time + c.1⟩ hpair.of_cons
          (fun c' hc' => List.rel_of_pairwise_cons hpair hc')
    · have hstep : logger_callback_step (some s) c.1 c.2 = (some s, false) := by
        simp only [logger_callback_step]
        rw [if_neg hcond]
      have hunfold : aux_reports s (c :: rest) = aux_reports s rest := by
        simp [aux_reports, logger_callback_run_aux, hstep]
      rw [hunfold]
      exact ih s hpair.of_cons
        (fun c' hc' => hall c' (List.mem_cons_of_mem _ hc'))

theorem reports_pairwise (calls : List (ℚ × ℚ))
    (h : List.Pairwise (fun a b => a.1 ≤ b.1) calls) :
    (reports calls).Pairwise (fun a b => b.1 - a.1 < 5 → b.2 = 1) := by
  cases calls with
  | nil => simp [reports, logger_callback_run, logger_callback_run_aux]
  | cons c rest =>
    have hrun : reports (c :: rest) = aux_reports ⟨c.1, 0⟩ rest := by
      simp [reports, logger_callback_run, logger_callback_run_aux,
        logger_callback_step, aux_reports]
    rw [hrun]
    exact aux_reports_pairwise rest ⟨c.1, 0⟩ h.of_cons
      (fun c' hc' => List.rel_of_pairwise_cons h hc')

theorem logger_aux_final :
    ∀ (mid : List (ℚ × ℚ)) (s : CbState) (tf : ℚ),
    0 ≤ s.last_time →
    ((s.total_time = 0 ∧ 5 < tf - s.last_time) ∨ 5 ≤ s.total_time) →
    (∀ c ∈ mid, 0 ≤ c.1) →
    ∃ l, logger_callback_run_aux (some s) (mid ++ [(tf, 1)]) =
      l ++ [((tf, 1), true)] := by
  intro mid
  induction mid with
  | nil =>
    intro s tf _ hq _
    have hstep : logger_callback_step (some s) tf 1 =
        (some ⟨tf, s.total_time + tf⟩, true) := by
      simp only [logger_callback_step]
      rw [if_pos (show 5 < tf - s.last_time ∨ True ∧ 5 ≤ s.total_time by
        rcases hq with ⟨_, h⟩ | h
        · exact Or.inl h
        · exact Or.inr ⟨trivial, h⟩)]
    refine ⟨[], ?_⟩
    simp [logger_callback_run_aux, hstep]
  | cons c mid ih =>
    intro s tf hlt hq hnn
    have hc1 : 0 ≤ c.1 := hnn c (List.mem_cons_self c mid)
    by_cases hcond : 5 < c.1 - s.last_time ∨ (c.2 = 1 ∧ 5 ≤ s.total_time)
    · have hstep : logger_callback_step (some s) c.1 c.2 =
          (some ⟨c.1, s.total_time + c.1⟩, true) := by
        simp only [logger_callback_step]
        rw [if_pos hcond]
      have hq' : (s.total_time + c.1 = 0 ∧ 5 < tf - c.1) ∨
          5 ≤ s.total_time + c.1 := by
        right
        rcases hq with ⟨ht0, _⟩ | h5
        · rcases hcond with hgt | ⟨_, habs⟩
          · rw [ht0, zero_add]
            linarith
          · rw [ht0] at habs
            linarith
        · linarith
      obtain ⟨l, hl⟩ := ih ⟨c.1, s.total_time + c.1⟩ tf hc1 hq'
        (fun c' hc' => hnn c' (List.mem_cons_of_mem _ hc'))
      refine ⟨(c, true) :: l, ?_⟩
      have : logger_callback_run_aux (some s) ((c :: mid) ++ [(tf, 1)]) =
          (c, true) :: logger_callback_run_aux
            (some ⟨c.1, s.total_time + c.1⟩) (mid ++ [(tf, 1)]) := by
        simp [logger_callback_run_aux, hstep]
      rw [this, hl]
      rfl
    · have hstep : logger_callback_step (some s) c.1 c.2 = (some s, false) := by
        simp only [logger_callback_step]
        rw [if_neg hcond]
      obtain ⟨l, hl⟩ := ih s tf hlt hq
        (fun c' hc' => hnn c' (List.mem_cons_of_mem _ hc'))
      refine ⟨(c, false) :: l, ?_⟩
      have : logger_callback_run_aux (some s) ((c :: mid) ++ [(tf, 1)]) =
          (c, false) :: logger_callback_run_aux (some s) (mid ++ [(tf, 1)]) := by
        simp [logger_callback_run_aux, hstep]
      rw [this, hl]
      rfl

theorem logger_final_emitted (t0 df0 : ℚ) (mid : List (ℚ × ℚ)) (tf : ℚ)
    (h0 : 0 ≤ t0) (hmid : ∀ c ∈ mid, 0 ≤ c.1) (hgap : 5 < tf - t0) :
    ∃ l, logger_callback_run ((t0, df0) :: (mid ++ [(tf, 1)])) =
      l ++ [((tf, 1), true)] := by
  obtain ⟨l, hl⟩ := logger_aux_final mid ⟨t0, 0⟩ tf h0 (Or.inl ⟨rfl, hgap⟩) hmid
  refine ⟨((t0, df0), false) :: l, ?_⟩
  have : logger_callback_run ((t0, df0) :: (mid ++ [(tf, 1)])) =
      ((t0, df0), false) ::
        logger_callback_run_aux (some ⟨t0, 0⟩) (mid ++ [(tf, 1)]) := by
    simp [logger_callback_run, logger_callback_run_aux, logger_callback_step]
  rw [this, hl]
  rfl

/-- C5: for every positive cellSize, make_empty_wgs84_raster produces
cols = floor(360/cellSize) and rows = floor(180/cellSize), a geotransform
anchored at (-180, +90) with positive x pixel size and negative y pixel
size, and every pixel equal to the configured nodata value immediately
after initialization. -/
theorem c5_empty_raster_spec (cell_size nodata_value : ℚ)
    (h : 0 < cell_size) :
    (((make_empty_wgs84_raster cell_size nodata_value).cols : ℤ) =
      ⌊(360:ℚ) / cell_size⌋) ∧
    (((make_empty_wgs84_raster cell_size nodata_value).rows : ℤ) =
      ⌊(180:ℚ) / cell_size⌋) ∧
    (make_empty_wgs84_raster cell_size nodata_value).gt.c0 = -180 ∧
    (make_empty_wgs84_raster cell_size nodata_value).gt.c3 = 90 ∧
    0 < (make_empty_wgs84_raster cell_size nodata_value).gt.c1 ∧
    (make_empty_wgs84_raster cell_size nodata_value).gt.c5 < 0 ∧
    ∀ x y, (make_empty_wgs84_raster cell_size nodata_value).data x y =
      nodata_value := by
  have h360 : (0:ℚ) ≤ 360 / cell_size := by positivity
  have h180 : (0:ℚ) ≤ 180 / cell_size := by positivity
  have hfl360 : (0:ℤ) ≤ ⌊(360:ℚ) / cell_size⌋ := Int.floor_nonneg.mpr h360
  have hfl180 : (0:ℤ) ≤ ⌊(180:ℚ) / cell_size⌋ := Int.floor_nonneg.mpr h180
  refine ⟨?_, ?_, rfl, rfl, h, neg_lt_zero.mpr h, fun _ _ => rfl⟩
  · show ((int_trunc (360 / cell_size)).toNat : ℤ) = ⌊(360:ℚ) / cell_size⌋
    rw [int_trunc, if_pos h360]
    exact Int.toNat_of_nonneg hfl360
  · show ((int_trunc (180 / cell_size)).toNat : ℤ) = ⌊(180:ℚ) / cell_size⌋
    rw [int_trunc, if_pos h180]
    exact Int.toNat_of_nonneg hfl180

/-- Witness for C5 at cellSize = 1/2 and nodata = 7. -/
theorem c5_witness :
    (0:ℚ) < 1 / 2 ∧
    ((((make_empty_wgs84_raster (1 / 2) 7).cols : ℤ) =
        ⌊(360:ℚ) / (1 / 2)⌋) ∧
      (((make_empty_wgs84_raster (1 / 2) 7).rows : ℤ) =
        ⌊(180:ℚ) / (1 / 2)⌋) ∧
      (make_empty_wgs84_raster (1 / 2) 7).gt.c0 = -180 ∧
      (make_empty_wgs84_raster (1 / 2) 7).gt.c3 = 90 ∧
      0 < (make_empty_wgs84_raster (1 / 2) 7).gt.c1 ∧
      (make_empty_wgs84_raster (1 / 2) 7).gt.c5 < 0 ∧
      ∀ x y, (make_empty_wgs84_raster (1 / 2) 7).data x y = 7) :=
  ⟨by norm_num, c5_empty_raster_spec (1 / 2) 7 (by norm_num)⟩

/-- C6: the overview level sequence of compress_to is the successive
powers of two 2, 4, 8, ... taken while min_dimension // level is nonzero
(stopping just before the first level where the quotient reaches zero);
for a smallest dimension of 1000 it is exactly 2, 4, ..., 512. -/
theorem c6_overview_levels_spec :
    (∀ m : ℕ, overview_levels m =
      ((List.range (m + 1)).map (fun i => 2 * 2 ^ i)).takeWhile
        (fun l => m / l != 0)) ∧
    overview_levels 1000 = [2, 4, 8, 16, 32, 64, 128, 256, 512] := by
  constructor
  · intro m
    exact overview_levels_from_eq m (m + 1) 2
  · rfl

/-- C10: when the re-open verification of the freshly created raster
fails, make_empty_wgs84_raster returns normally (no error is raised) and
the completion token file is not created. -/
theorem c10_reopen_failure_silent (cell_size nodata_value : ℚ) :
    make_empty_wgs84_raster_checked cell_size nodata_value false =
      Except.ok (make_empty_wgs84_raster cell_size nodata_value, false) ∧
    ∀ e : String,
      make_empty_wgs84_raster_checked cell_size nodata_value false ≠
        Except.error e := by
  refine ⟨rfl, fun e h => ?_⟩
  simp [make_empty_wgs84_raster_checked] at h

/-- C7: the mosaic tasks of one output group form a chain in submission
order: each later mosaic task directly depends on the previous mosaic task
(plus, through its warp task, on the group's initialization task), so in
every dependency-respecting schedule the initialization ends before any
mosaic starts, the mosaic tasks are totally ordered, and no two mosaic
tasks of the group are ever in flight at the same time. -/
theorem c7_merge_chain_serialization (n : ℕ) (tstart tstop : ℕ → ℚ)
    (hv : sched_valid (chain_tasks n) tstart tstop) :
    (∀ k, k + 1 < n →
      (⟨mosaic_id (k + 1), [warp_id (k + 1), mosaic_id k],
        TaskKind.mosaic⟩ : ChainTask) ∈ chain_tasks n) ∧
    (∀ k, k < n → tstop 0 ≤ tstart (mosaic_id k)) ∧
    (∀ i j, i < j → j < n → tstop (mosaic_id i) ≤ tstart (mosaic_id j)) ∧
    (∀ τ i j, i < j → j < n →
      ¬ (tstart (mosaic_id i) ≤ τ ∧ τ < tstop (mosaic_id i) ∧
        tstart (mosaic_id j) ≤ τ ∧ τ < tstop (mosaic_id j))) := by
  refine ⟨fun k hk => chain_tasks_mosaic_succ_mem hk,
    fun k hk => sched_init_before_mosaic hv hk,
    sched_mosaic_chain_order hv, ?_⟩
  intro τ i j hij hjn ⟨h1, h2, h3, h4⟩
  have := sched_mosaic_chain_order hv i j hij hjn
  linarith

/-- Concrete start times for the C7 witness schedule (two tiles). -/
def c7_start : ℕ → ℚ := fun tid =>
  if tid = 0 then 0 else if tid = 1 then 1 else if tid = 2 then 2
  else if tid = 3 then 1 else 3

/-- Concrete end times for the C7 witness schedule (two tiles). -/
def c7_stop : ℕ → ℚ := fun tid =>
  if tid = 0 then 1 else if tid = 1 then 2 else if tid = 2 then 3
  else if tid = 3 then 2 else 4

/-- Witness for C7: a two-tile chain with a concrete valid schedule. -/
theorem c7_witness :
    sched_valid (chain_tasks 2) c7_start c7_stop ∧
    ((∀ k, k + 1 < 2 →
      (⟨mosaic_id (k + 1), [warp_id (k + 1), mosaic_id k],
        TaskKind.mosaic⟩ : ChainTask) ∈ chain_tasks 2) ∧
    (∀ k, k < 2 → c7_stop 0 ≤ c7_start (mosaic_id k)) ∧
    (∀ i j, i < j → j < 2 →
      c7_stop (mosaic_id i) ≤ c7_start (mosaic_id j)) ∧
    (∀ τ i j, i < j → j < 2 →
      ¬ (c7_start (mosaic_id i) ≤ τ ∧ τ < c7_stop (mosaic_id i) ∧
        c7_start (mosaic_id j) ≤ τ ∧ τ < c7_stop (mosaic_id j)))) := by
  have hv : sched_valid (chain_tasks 2) c7_start c7_stop := by
    unfold sched_valid
    exact ⟨by decide, by decide⟩
  exact ⟨hv, c7_merge_chain_serialization 2 c7_start c7_stop hv⟩

/-- Concrete 1x1 target for C3: nodata 0, pixel value 1e-9 (distinct from
nodata but within numpy.isclose tolerance of it). -/
def c3_target : Raster :=
  ⟨1, 1, 4, 4, ⟨0, 1, 0, 0, 0, -1⟩, 0, fun _ _ => 1 / 1000000000⟩

/-- Concrete 1x1 source for C3: every pixel holds the nodata value 0. -/
def c3_base : Raster :=
  ⟨1, 1, 4, 4, ⟨0, 1, 0, 0, 0, -1⟩, 0, fun _ _ => 0⟩

theorem c3_x_off : target_x_off c3_base c3_target = 0 := by
  show int_trunc ((0 - 0) / 1) = 0
  have h : ((0:ℚ) - 0) / 1 = 0 := by norm_num
  rw [h, int_trunc, if_pos le_rfl]
  exact Int.floor_zero

theorem c3_y_off : target_y_off c3_base c3_target = 0 := by
  show int_trunc ((0 - 0) / (-1)) = 0
  have h : ((0:ℚ) - 0) / (-1) = 0 := by norm_num
  rw [h, int_trunc, if_pos le_rfl]
  exact Int.floor_zero

theorem c3_ok : merge_ok c3_base c3_target := by
  refine ⟨by decide, by decide, ?_, ?_, ?_, ?_⟩
  · rw [c3_x_off]
  · rw [c3_x_off]
    decide
  · rw [c3_y_off]
  · rw [c3_y_off]
    decide

theorem c3_close : numpy_isclose (c3_target.data 0 0) c3_target.nodata := by
  show numpy_isclose (1 / 1000000000) 0
  rw [numpy_isclose, sub_zero, abs_zero, mul_zero, add_zero,
    abs_of_nonneg (by norm_num : (0:ℚ) ≤ 1 / 1000000000), ATOL]
  norm_num

/-- C3 counterexample: the source pixel holds the nodata value and the
target pixel holds a non-nodata value (1e-9), so by the claim the target
pixel must be left untouched; yet the merge overwrites it with 0 because
the target value is merely numpy-close to nodata. -/
theorem c3_counterexample :
    c3_base.data 0 0 = c3_target.nodata ∧
    c3_target.data 0 0 ≠ c3_target.nodata ∧
    (mosaic_base_into_target c3_base c3_target).map (fun r => r.data 0 0) =
      some 0 ∧
    (0:ℚ) ≠ c3_target.data 0 0 := by
  refine ⟨rfl, by norm_num [c3_target], ?_, by norm_num [c3_target]⟩
  obtain ⟨d, hd, hc⟩ := mosaic_spec c3_base c3_target c3_ok
  rw [hd]
  show some (d 0 0) = some 0
  have hin : in_base_window c3_base c3_target 0 0 := by
    unfold in_base_window
    rw [c3_x_off, c3_y_off]
    refine ⟨le_rfl, by decide, le_rfl, by decide⟩
  rw [(hc 0 0).1 hin, merged_val, fill_value, if_pos c3_close]
  rfl

/-- C3 amended: within a single merge, a pixel inside the source window is
overwritten with the source value exactly when the target value is
numpy-close to the nodata value — regardless of the source value (even a
nodata source value is written); pixels whose target value is not close to
nodata, and pixels outside the source window, are left untouched. -/
theorem c3_merge_pixel_rule (base target : Raster)
    (h : merge_ok base target) :
    ∃ d, mosaic_base_into_target base target =
        some { target with data := d } ∧
      ∀ x y,
        (in_base_window base target x y →
          numpy_isclose (target.data x y) target.nodata →
          d x y = base.data (x - target_x_off base target)
            (y - target_y_off base target)) ∧
        (in_base_window base target x y →
          ¬ numpy_isclose (target.data x y) target.nodata →
          d x y = target.data x y) ∧
        (¬ in_base_window base target x y → d x y = target.data x y) := by
  obtain ⟨d, hd, hc⟩ := mosaic_spec base target h
  refine ⟨d, hd, fun x y => ⟨?_, ?_, (hc x y).2⟩⟩
  · intro hin hcl
    rw [(hc x y).1 hin, merged_val, fill_value, if_pos hcl]
  · intro hin hcl
    rw [(hc x y).1 hin, merged_val, fill_value, if_neg hcl]

/-- Witness for C3 at the concrete 1x1 rasters. -/
theorem c3_witness :
    merge_ok c3_base c3_target ∧
    ∃ d, mosaic_base_into_target c3_base c3_target =
        some { c3_target with data := d } ∧
      ∀ x y,
        (in_base_window c3_base c3_target x y →
          numpy_isclose (c3_target.data x y) c3_target.nodata →
          d x y = c3_base.data (x - target_x_off c3_base c3_target)
            (y - target_y_off c3_base c3_target)) ∧
        (in_base_window c3_base c3_target x y →
          ¬ numpy_isclose (c3_target.data x y) c3_target.nodata →
          d x y = c3_target.data x y) ∧
        (¬ in_base_window c3_base c3_target x y →
          d x y = c3_target.data x y) :=
  ⟨c3_ok, c3_merge_pixel_rule c3_base c3_target c3_ok⟩

/-- Concrete 8x8 target for C1 at origin (0, 0) with unit pixels. -/
def c1_target : Raster :=
  ⟨8, 8, 256, 256, ⟨0, 1, 0, 0, 0, -1⟩, 0, fun _ _ => 0⟩

/-- Concrete 2x2 source for C1 whose origin is offset by 2.5 target
pixels in x: a misaligned grid. -/
def c1_base : Raster :=
  ⟨2, 2, 4, 4, ⟨5 / 2, 1, 0, 0, 0, -1⟩, 0, fun _ _ => 7⟩

theorem c1_x_off : target_x_off c1_base c1_target = 2 := by
  show int_trunc ((5 / 2 - 0) / 1) = 2
  have h : ((5:ℚ) / 2 - 0) / 1 = 5 / 2 := by norm_num
  rw [h, int_trunc, if_pos (by norm_num : (0:ℚ) ≤ 5 / 2)]
  norm_num

theorem c1_y_off : target_y_off c1_base c1_target = 0 := by
  show int_trunc ((0 - 0) / (-1)) = 0
  have h : ((0:ℚ) - 0) / (-1) = 0 := by norm_num
  rw [h, int_trunc, if_pos le_rfl]
  exact Int.floor_zero

theorem c1_ok : merge_ok c1_base c1_target := by
  refine ⟨by decide, by decide, ?_, ?_, ?_, ?_⟩
  · rw [c1_x_off]
    decide
  · rw [c1_x_off]
    decide
  · rw [c1_y_off]
  · rw [c1_y_off]
    decide

/-- C1 counterexample: the source origin is offset from the target origin
by 2.5 target pixels (a non-integral offset), yet the merge succeeds
instead of failing with an alignment error: it silently truncates the
offset and proceeds. -/
theorem c1_counterexample :
    (¬ ∃ z : ℤ,
      (c1_base.gt.c0 - c1_target.gt.c0) / c1_target.gt.c1 = (z : ℚ)) ∧
    (mosaic_base_into_target c1_base c1_target).isSome = true := by
  constructor
  · rintro ⟨z, hz⟩
    have hq : (c1_base.gt.c0 - c1_target.gt.c0) / c1_target.gt.c1 =
        (5:ℚ) / 2 := by norm_num [c1_base, c1_target]
    rw [hq] at hz
    have h2 : ⌊(5:ℚ) / 2⌋ = 2 := by norm_num
    rw [hz, Int.floor_intCast] at h2
    rw [h2] at hz
    norm_num at hz
  · obtain ⟨d, hd, _⟩ := mosaic_spec c1_base c1_target c1_ok
    rw [hd]
    rfl

/-- C1 amended: mosaic_base_into_target performs no alignment or bounds
check on the offset: whenever the truncated offset keeps the source window
inside the target raster, the merge succeeds (the completion token is
written), whether or not the offset quotient is an integer. -/
theorem c1_merge_proceeds_without_alignment_check (base target : Raster)
    (h : merge_ok base target) :
    (mosaic_base_into_target base target).isSome = true := by
  obtain ⟨d, hd, _⟩ := mosaic_spec base target h
  rw [hd]
  rfl

/-- Witness for C1 at the misaligned concrete rasters. -/
theorem c1_witness :
    merge_ok c1_base c1_target ∧
    (mosaic_base_into_target c1_base c1_target).isSome = true :=
  ⟨c1_ok, c1_merge_proceeds_without_alignment_check c1_base c1_target c1_ok⟩

theorem round_nearest_eq_round (q : ℚ) : round_nearest q = round q :=
  (round_eq q).symm

/-- Concrete 16x16 target for C4 at origin (0, 0) with unit pixels. -/
def c4_target : Raster :=
  ⟨16, 16, 256, 256, ⟨0, 1, 0, 0, 0, -1⟩, -1, fun _ _ => -1⟩

/-- Concrete 2x2 source for C4 whose origin is offset by 2.7 target
pixels in x. -/
def c4_base : Raster :=
  ⟨2, 2, 4, 4, ⟨27 / 10, 1, 0, 0, 0, -1⟩, -1, fun _ _ => 7⟩

/-- C4 counterexample: for a source origin 2.7 target pixels to the right,
rounding to the nearest integer gives 3, but the code's int() truncation
gives 2, so the computed offset differs from the claimed
round((sourceOriginX - targetOriginX) / targetPixelWidth). -/
theorem c4_counterexample :
    target_x_off c4_base c4_target ≠
      round_nearest ((c4_base.gt.c0 - c4_target.gt.c0) / c4_target.gt.c1) ∧
    target_x_off c4_base c4_target = 2 ∧
    round_nearest ((c4_base.gt.c0 - c4_target.gt.c0) / c4_target.gt.c1) =
      round ((c4_base.gt.c0 - c4_target.gt.c0) / c4_target.gt.c1) ∧
    round ((c4_base.gt.c0 - c4_target.gt.c0) / c4_target.gt.c1) = 3 := by
  have hq : (c4_base.gt.c0 - c4_target.gt.c0) / c4_target.gt.c1 =
      (27:ℚ) / 10 := by norm_num [c4_base, c4_target]
  have h2 : target_x_off c4_base c4_target = 2 := by
    rw [target_x_off, hq, int_trunc, if_pos (by norm_num : (0:ℚ) ≤ 27 / 10)]
    norm_num
  have h3 : round ((c4_base.gt.c0 - c4_target.gt.c0) / c4_target.gt.c1) =
      3 := by
    rw [hq, round_eq]
    norm_num
  refine ⟨?_, h2, round_nearest_eq_round _, h3⟩
  rw [h2, round_nearest_eq_round _, h3]
  decide

/-- C4 amended: the merge offset is computed by int() truncation toward
zero, not by rounding to the nearest integer (the two agree when the
quotient is an exact integer); in particular, for a target with origin
(-180, 90), cell size c, and a source whose origin lies exactly 2 target
pixels right and 3 down, the computed offset is (+2, +3) and every pixel
of the source window is written at target coordinates shifted by
(+2, +3). -/
theorem c4_offset_truncation (base target : Raster) (c : ℚ) (hc : 0 < c)
    (hbgt : base.gt = ⟨-180 + 2 * c, c, 0, 90 - 3 * c, 0, -c⟩)
    (htgt : target.gt = ⟨-180, c, 0, 90, 0, -c⟩)
    (hbx : 1 ≤ base.block_xsize) (hby : 1 ≤ base.block_ysize)
    (hcols : 2 + (base.cols : ℤ) ≤ (target.cols : ℤ))
    (hrows : 3 + (base.rows : ℤ) ≤ (target.rows : ℤ)) :
    target_x_off base target = 2 ∧ target_y_off base target = 3 ∧
    ∃ d, mosaic_base_into_target base target =
        some { target with data := d } ∧
      ∀ x y, 2 ≤ x → x < 2 + (base.cols : ℤ) → 3 ≤ y →
        y < 3 + (base.rows : ℤ) →
        d x y = fill_value target.nodata (target.data x y)
          (base.data (x - 2) (y - 3)) := by
  have hcne : c ≠ 0 := ne_of_gt hc
  have hx : target_x_off base target = 2 := by
    rw [target_x_off, hbgt, htgt]
    show int_trunc ((-180 + 2 * c - (-180)) / c) = 2
    have h : (-180 + 2 * c - (-180)) / c = 2 := by
      field_simp
    rw [h, int_trunc, if_pos (by norm_num : (0:ℚ) ≤ 2)]
    norm_num
  have hy : target_y_off base target = 3 := by
    rw [target_y_off, hbgt, htgt]
    show int_trunc ((90 - 3 * c - 90) / (-c)) = 3
    have h : ((90:ℚ) - 3 * c - 90) / (-c) = 3 := by
      field_simp
    rw [h, int_trunc, if_pos (by norm_num : (0:ℚ) ≤ 3)]
    norm_num
  have hok : merge_ok base target := by
    refine ⟨hbx, hby, ?_, ?_, ?_, ?_⟩
    · rw [hx]
      decide
    · rw [hx]
      exact hcols
    · rw [hy]
      decide
    · rw [hy]
      exact hrows
  obtain ⟨d, hd, hc'⟩ := mosaic_spec base target hok
  refine ⟨hx, hy, d, hd, ?_⟩
  intro x y h1 h2 h3 h4
  have hin : in_base_window base target x y := by
    unfold in_base_window
    rw [hx, hy]
    exact ⟨h1, h2, h3, h4⟩
  rw [(hc' x y).1 hin, merged_val, hx, hy]

/-- Concrete 8x8 target for the C4 witness: origin (-180, 90), cell 1. -/
def c4w_target : Raster :=
  ⟨8, 8, 256, 256, ⟨-180, 1, 0, 90, 0, -1⟩, 0, fun _ _ => 0⟩

/-- Concrete 1x1 source for the C4 witness: origin exactly 2 pixels right
and 3 down of (-180, 90). -/
def c4w_base : Raster :=
  ⟨1, 1, 4, 4, ⟨-180 + 2 * 1, 1, 0, 90 - 3 * 1, 0, -1⟩, 0, fun _ _ => 5⟩

/-- Witness for C4 with cell size 1. -/
theorem c4_witness :
    (0:ℚ) < 1 ∧
    (target_x_off c4w_base c4w_target = 2 ∧
      target_y_off c4w_base c4w_target = 3 ∧
      ∃ d, mosaic_base_into_target c4w_base c4w_target =
          some { c4w_target with data := d } ∧
        ∀ x y, 2 ≤ x → x < 2 + (c4w_base.cols : ℤ) → 3 ≤ y →
          y < 3 + (c4w_base.rows : ℤ) →
          d x y = fill_value c4w_target.nodata (c4w_target.data x y)
            (c4w_base.data (x - 2) (y - 3))) :=
  ⟨by norm_num,
    c4_offset_truncation c4w_base c4w_target 1 (by norm_num) rfl rfl
      (by decide) (by decide) (by decide) (by decide)⟩

/-- Concrete 1x1 target for C2: initialized to nodata 0. -/
def c2_target : Raster :=
  ⟨1, 1, 4, 4, ⟨0, 1, 0, 0, 0, -1⟩, 0, fun _ _ => 0⟩

/-- First source of the C2 chain: pixel value 1e-9, which differs from
nodata 0 but lies within numpy.isclose tolerance of it. -/
def c2_b1 : Raster :=
  ⟨1, 1, 4, 4, ⟨0, 1, 0, 0, 0, -1⟩, 0, fun _ _ => 1 / 1000000000⟩

/-- Second source of the C2 chain: pixel value 5. -/
def c2_b2 : Raster :=
  ⟨1, 1, 4, 4, ⟨0, 1, 0, 0, 0, -1⟩, 0, fun _ _ => 5⟩

theorem c2_aligned_x (b : Raster) (hb : b.gt = ⟨0, 1, 0, 0, 0, -1⟩) :
    target_x_off b c2_target = 0 := by
  rw [target_x_off, hb]
  show int_trunc ((0 - 0) / 1) = 0
  have h : ((0:ℚ) - 0) / 1 = 0 := by norm_num
  rw [h, int_trunc, if_pos le_rfl]
  exact Int.floor_zero

theorem c2_aligned_y (b : Raster) (hb : b.gt = ⟨0, 1, 0, 0, 0, -1⟩) :
    target_y_off b c2_target = 0 := by
  rw [target_y_off, hb]
  show int_trunc ((0 - 0) / (-1)) = 0
  have h : ((0:ℚ) - 0) / (-1) = 0 := by norm_num
  rw [h, int_trunc, if_pos le_rfl]
  exact Int.floor_zero

theorem c2_ok (b : Raster) (hb : b.gt = ⟨0, 1, 0, 0, 0, -1⟩)
    (hbx : 1 ≤ b.block_xsize) (hby : 1 ≤ b.block_ysize)
    (hc : b.cols = 1) (hr : b.rows = 1) : merge_ok b c2_target := by
  refine ⟨hbx, hby, ?_, ?_, ?_, ?_⟩
  · rw [c2_aligned_x b hb]
  · rw [c2_aligned_x b hb, hc]
    decide
  · rw [c2_aligned_y b hb]
  · rw [c2_aligned_y b hb, hr]
    decide

theorem c2_cov (b : Raster) (hb : b.gt = ⟨0, 1, 0, 0, 0, -1⟩)
    (hc : b.cols = 1) (hr : b.rows = 1) :
    in_base_window b c2_target 0 0 := by
  unfold in_base_window
  rw [c2_aligned_x b hb, c2_aligned_y b hb, hc, hr]
  exact ⟨le_rfl, by decide, le_rfl, by decide⟩

theorem c2_close_tiny : numpy_isclose ((1:ℚ) / 1000000000) 0 := by
  rw [numpy_isclose, sub_zero, abs_zero, mul_zero, add_zero,
    abs_of_nonneg (by norm_num : (0:ℚ) ≤ 1 / 1000000000), ATOL]
  norm_num

/-- C2 counterexample: in the chain [b1, b2] the first source cell holds
the non-nodata value 1e-9, so by the claim the final cell value must be
1e-9 and the second merge must not change the already non-nodata cell;
yet the final value is 5: the second merge overwrote the cell because
1e-9 is within tolerance of nodata. -/
theorem c2_counterexample :
    c2_b1.data 0 0 ≠ c2_target.nodata ∧
    (mosaic_chain c2_target [c2_b1, c2_b2]).map (fun r => r.data 0 0) =
      some 5 ∧
    c2_b1.data 0 0 ≠ 5 := by
  have hok : ∀ b ∈ [c2_b1, c2_b2], merge_ok b c2_target := by
    intro b hb
    rcases List.mem_cons.mp hb with rfl | hb
    · exact c2_ok c2_b1 rfl (by decide) (by decide) rfl rfl
    · rcases List.mem_cons.mp hb with rfl | hb
      · exact c2_ok c2_b2 rfl (by decide) (by decide) rfl rfl
      · simp at hb
  have hcov : ∀ b ∈ [c2_b1, c2_b2], in_base_window b c2_target 0 0 := by
    intro b hb
    rcases List.mem_cons.mp hb with rfl | hb
    · exact c2_cov c2_b1 rfl rfl rfl
    · rcases List.mem_cons.mp hb with rfl | hb
      · exact c2_cov c2_b2 rfl rfl rfl
      · simp at hb
  refine ⟨by norm_num [c2_b1, c2_target], ?_, by norm_num [c2_b1]⟩
  obtain ⟨d, hd, hval⟩ := mosaic_chain_spec 0 0 [c2_b1, c2_b2] c2_target
    hok hcov
  rw [hd]
  show some (d 0 0) = some 5
  rw [hval]
  have hcontribs : chain_contribs c2_target [c2_b1, c2_b2] 0 0 =
      [1 / 1000000000, 5] := rfl
  rw [hcontribs]
  have hfold : fill_fold c2_target.nodata (c2_target.data 0 0)
      [1 / 1000000000, 5] = 5 := by
    show fill_value 0 (fill_value 0 0 (1 / 1000000000)) 5 = 5
    have hinner : fill_value 0 0 ((1:ℚ) / 1000000000) = 1 / 1000000000 := by
      rw [fill_value, if_pos (numpy_isclose_self 0)]
    rw [hinner, fill_value, if_pos c2_close_tiny]
  rw [hfold]

/-- C2 amended: after a merge chain over a cell that starts at nodata and
is covered by every source, the final value is the contribution of the
first merge whose source cell is not within tolerance of nodata; and a
merge never changes a cell whose current value is not within tolerance of
nodata. -/
theorem c2_chain_first_fill_wins (target : Raster) (bases : List Raster)
    (x y : ℤ)
    (hok : ∀ b ∈ bases, merge_ok b target)
    (hcov : ∀ b ∈ bases, in_base_window b target x y)
    (hinit : target.data x y = target.nodata) :
    (∃ d, mosaic_chain target bases = some { target with data := d } ∧
      ∀ v, first_not_close target.nodata
          (chain_contribs target bases x y) = some v →
        d x y = v) ∧
    (∀ (t' base : Raster), merge_ok base t' →
      ¬ numpy_isclose (t'.data x y) t'.nodata →
      ∃ d', mosaic_base_into_target base t' =
          some { t' with data := d' } ∧
        d' x y = t'.data x y) := by
  constructor
  · obtain ⟨d, hd, hval⟩ := mosaic_chain_spec x y bases target hok hcov
    refine ⟨d, hd, fun v hv => ?_⟩
    rw [hval, hinit]
    exact fill_fold_first target.nodata _ target.nodata v
      (numpy_isclose_self target.nodata) hv
  · intro t' base hok' hncl
    obtain ⟨d', hd', hc'⟩ := mosaic_spec base t' hok'
    refine ⟨d', hd', ?_⟩
    by_cases hin : in_base_window base t' x y
    · rw [(hc' x y).1 hin, merged_val, fill_value, if_neg hncl]
    · exact (hc' x y).2 hin

/-- Witness for C2 at the concrete chain of two 1x1 sources. -/
theorem c2_witness :
    (∀ b ∈ [c2_b1, c2_b2], merge_ok b c2_target) ∧
    c2_target.data 0 0 = c2_target.nodata ∧
    ((∃ d, mosaic_chain c2_target [c2_b1, c2_b2] =
        some { c2_target with data := d } ∧
      ∀ v, first_not_close c2_target.nodata
          (chain_contribs c2_target [c2_b1, c2_b2] 0 0) = some v →
        d 0 0 = v) ∧
    (∀ (t' base : Raster), merge_ok base t' →
      ¬ numpy_isclose (t'.data 0 0) t'.nodata →
      ∃ d', mosaic_base_into_target base t' =
          some { t' with data := d' } ∧
        d' 0 0 = t'.data 0 0)) := by
  have hok : ∀ b ∈ [c2_b1, c2_b2], merge_ok b c2_target := by
    intro b hb
    rcases List.mem_cons.mp hb with rfl | hb
    · exact c2_ok c2_b1 rfl (by decide) (by decide) rfl rfl
    · rcases List.mem_cons.mp hb with rfl | hb
      · exact c2_ok c2_b2 rfl (by decide) (by decide) rfl rfl
      · simp at hb
  have hcov : ∀ b ∈ [c2_b1, c2_b2], in_base_window b c2_target 0 0 := by
    intro b hb
    rcases List.mem_cons.mp hb with rfl | hb
    · exact c2_cov c2_b1 rfl rfl rfl
    · rcases List.mem_cons.mp hb with rfl | hb
      · exact c2_cov c2_b2 rfl rfl rfl
      · simp at hb
  exact ⟨hok, rfl,
    c2_chain_first_fill_wins c2_target [c2_b1, c2_b2] 0 0 hok hcov rfl⟩

/-- C8 amended: when some declared suffix has no matching file in the
sample directory, pipeline construction aborts with the lookup error, and
every task scheduled up to that point is an initialization task for an
earlier suffix — no warp or mosaic task is ever scheduled. -/
theorem c8_missing_suffix_aborts (sfxs files : List (List ℕ))
    (dirs : List (List (List ℕ)))
    (h : ∃ s ∈ sfxs, find_matching files s = none) :
    (build_pipeline sfxs files dirs).2 = false ∧
    ∀ t ∈ (build_pipeline sfxs files dirs).1, t.kind = TaskKind.init := by
  have hfail := schedule_init_tasks_fail sfxs files h
  constructor
  · simp [build_pipeline, hfail]
  · intro t ht
    rw [build_pipeline] at ht
    rw [hfail] at ht
    simp at ht
    exact schedule_init_tasks_kinds sfxs files t ht

/-- C8 counterexample: with declared suffixes [1] and [2] and a sample
directory holding only a file matching [1], construction fails — but only
after the initialization task for suffix [1] was already scheduled, so
the failure does not happen before any task has been scheduled. -/
theorem c8_counterexample :
    find_matching [[9, 1]] [2] = none ∧
    (build_pipeline [[1], [2]] [[9, 1]] []).2 = false ∧
    (build_pipeline [[1], [2]] [[9, 1]] []).1 =
      [⟨TaskKind.init, [1]⟩] := by
  refine ⟨by decide, by decide, by decide⟩

/-- Witness for C8 at the concrete two-suffix configuration. -/
theorem c8_witness :
    (∃ s ∈ [[1], [2]], find_matching [[9, 1]] s = none) ∧
    ((build_pipeline [[1], [2]] [[9, 1]] []).2 = false ∧
      ∀ t ∈ (build_pipeline [[1], [2]] [[9, 1]] []).1,
        t.kind = TaskKind.init) := by
  have h : ∃ s ∈ [[1], [2]], find_matching [[9, 1]] s = none :=
    ⟨[2], by decide, by decide⟩
  exact ⟨h, c8_missing_suffix_aborts [[1], [2]] [[9, 1]] [] h⟩

/-- C9 counterexample: the build's only callback calls are at time 0
(initialization, never logged) and at time 5 with df_complete = 1, so the
whole build took exactly 5 seconds — at least 5 seconds, as the claim
requires — yet the final 100% report is not emitted: the code requires a
strictly greater than 5 second gap (and its total_time accumulator is
still 0). -/
theorem c9_counterexample :
    (5:ℚ) - 0 ≥ 5 ∧
    logger_callback_run [(0, 0), (5, 1)] =
      [((0, 0), false), ((5, 1), false)] := by
  constructor
  · norm_num
  · have h1 : logger_callback_step none 0 0 = (some ⟨0, 0⟩, false) := rfl
    have h2 : logger_callback_step (some ⟨0, 0⟩) 5 1 =
        (some ⟨0, 0⟩, false) := by
      simp only [logger_callback_step]
      rw [if_neg (by norm_num : ¬ (5 < (5:ℚ) - 0 ∨ True ∧ 5 ≤ (0:ℚ)))]
    show logger_callback_run_aux none [(0, 0), (5, 1)] = _
    simp only [logger_callback_run_aux, h1, h2]

/-- C9 amended: (a) among the logged progress reports, any two reports
less than 5 seconds apart have a df_complete = 1 (100%) later report, so
throttled intermediate reports are never closer than 5 seconds; (b) the
final 100% report is always emitted when the build took strictly more
than 5 seconds (measured from the first callback call, with nonnegative
call times). -/
theorem c9_throttle_spec :
    (∀ calls : List (ℚ × ℚ), List.Pairwise (fun a b => a.1 ≤ b.1) calls →
      (reports calls).Pairwise (fun a b => b.1 - a.1 < 5 → b.2 = 1)) ∧
    (∀ (t0 df0 : ℚ) (mid : List (ℚ × ℚ)) (tf : ℚ), 0 ≤ t0 →
      (∀ c ∈ mid, 0 ≤ c.1) → 5 < tf - t0 →
      ∃ l, logger_callback_run ((t0, df0) :: (mid ++ [(tf, 1)])) =
        l ++ [((tf, 1), true)]) :=
  ⟨reports_pairwise, logger_final_emitted⟩

/-- Witness for C9 on the concrete call sequence [(0, 0), (6, 1)]. -/
theorem c9_witness :
    (List.Pairwise (fun (a b : ℚ × ℚ) => a.1 ≤ b.1) [(0, 0), (6, 1)] ∧
      (reports [(0, 0), (6, 1)]).Pairwise
        (fun a b => b.1 - a.1 < 5 → b.2 = 1)) ∧
    ((0:ℚ) ≤ 0 ∧ 5 < (6:ℚ) - 0 ∧
      ∃ l, logger_callback_run [(0, 0), (6, 1)] =
        l ++ [((6, 1), true)]) := by
  have hp : List.Pairwise (fun (a b : ℚ × ℚ) => a.1 ≤ b.1) [(0, 0), (6, 1)] := by
    decide
  refine ⟨⟨hp, c9_throttle_spec.1 _ hp⟩, le_refl 0, by norm_num, ?_⟩
  exact c9_throttle_spec.2 0 0 [] 6 (le_refl 0) (by simp) (by norm_num)
